import Mathlib

/-!
Verification of the LiteX SoC address-space / resource-allocation layer
(`litex/soc/integration/soc.py`): `SoCRegion`, `SoCBusHandler` region
bookkeeping (`add_region`, `alloc_region`, `check_regions_overlap`,
`check_region_is_in`, `check_region_is_io`, `do_finalize` topology
selection), and the location allocators (`SoCLocHandler`, `SoCCSRHandler`,
`SoCIRQHandler`).

Modelling conventions:
* Python `dict`s (insertion ordered, unique keys) are association lists
  `List (String × _)`; insertion appends at the end.
* Addresses and sizes are `Nat`; explicitly-requested location numbers are
  `Int` (the source checks `n < 0`).
* A Python method that mutates `self` and may `raise SoCError` becomes a
  function returning the new state.  `SoCBusHandler.add_region` mutates the
  region dict *before* its overlap check and the exception does not undo
  that, so it returns `SoCBusHandler × Option SoCErr` (state plus error);
  `SoCLocHandler.add` performs all checks before its single mutation, so it
  returns `Except LocErr _`.
* migen's `Module.finalize` (an external dependency of the source) sets a
  `finalized` flag after running `do_finalize`; the flag is included in the
  `SoCBusHandler` state so that post-finalize behaviour can be stated.  No
  code in `soc.py` reads it.
-/

namespace LiteX

/-- Number of binary digits of `m` (Python `int.bit_length`), computed by
structural recursion on a fuel argument; `fuel = m` suffices since a
number has at most as many binary digits as its value. -/
def bit_length_aux : Nat → Nat → Nat
  | 0, _ => 0
  | fuel + 1, m => if m = 0 then 0 else bit_length_aux fuel (m / 2) + 1

/-- Python `m.bit_length()`. -/
def bit_length (m : Nat) : Nat := bit_length_aux m m

/-- migen `log2_int(n, need_pow2 := False)`: `0` for `n = 0`, else
`(n-1).bit_length()`, i.e. the exponent of the next power of two. -/
def log2_int (n : Nat) : Nat := bit_length (n - 1)

/-- `SoCRegion` as stored in the handler's collections: every stored region
has a concrete origin (either given explicitly or produced by
`alloc_region`), so `origin` is a plain `Nat` here and the constructor's
optional origin is the `Option Nat` argument of `add_region` below.
`size_pow2` is derived from `size` exactly as in the constructor. -/
structure SoCRegion where
  origin : Nat
  size   : Nat
  mode   : String
  cached : Bool
  linker : Bool
  decode : Bool
deriving DecidableEq, Repr

/-- `self.size_pow2 = 2**log2_int(size, False)` from the constructor. -/
def SoCRegion.size_pow2 (r : SoCRegion) : Nat := 2 ^ log2_int r.size

/-- State of `SoCBusHandler` relevant to region/topology bookkeeping.
Masters and slaves are kept as their name lists: the attached bus
interfaces are migen hardware objects whose contents never influence the
region algebra or the topology choice (only the counts and names do).
`finalized` models migen's finalize flag (see header). -/
structure SoCBusHandler where
  standard         : String
  data_width       : Nat
  address_width    : Nat
  interconnect     : String
  masters          : List String
  slaves           : List String
  regions          : List (String × SoCRegion)
  io_regions       : List (String × SoCRegion)
  io_regions_check : Bool
  finalized        : Bool
deriving DecidableEq, Repr

/-- Errors raised (as `SoCError`) by the region operations. -/
inductive SoCErr where
  | duplicateName (name : String)
  | ioOverlap (n0 n1 : String)
  | regionOverlap (n0 n1 : String)
  | cachedInsideIoRegion (name : String)
  | notCachedOutsideIoRegion (name : String)
  | outOfSpace
deriving DecidableEq, Repr

/-- Inner loop of `check_regions_overlap`: compare `(n0, r0)` against every
later entry, skipping pairs with a linker region unless `check_linker`,
and report the first overlapping pair. -/
def regions_overlap_inner (n0 : String) (r0 : SoCRegion) (check_linker : Bool) :
    List (String × SoCRegion) → Option (String × String)
  | [] => none
  | (n1, r1) :: rest =>
    if (r0.linker || r1.linker) && !check_linker then
      regions_overlap_inner n0 r0 check_linker rest
    else if r1.origin + r1.size_pow2 ≤ r0.origin then
      regions_overlap_inner n0 r0 check_linker rest
    else if r0.origin + r0.size_pow2 ≤ r1.origin then
      regions_overlap_inner n0 r0 check_linker rest
    else
      some (n0, n1)

/-- `SoCBusHandler.check_regions_overlap`: pairwise scan in insertion
order; returns the first pair of names whose `[origin, origin+size_pow2)`
footprints intersect, `none` if there is no such pair. -/
def check_regions_overlap (check_linker : Bool) :
    List (String × SoCRegion) → Option (String × String)
  | [] => none
  | (n0, r0) :: rest =>
    match regions_overlap_inner n0 r0 check_linker rest with
    | some p => some p
    | none   => check_regions_overlap check_linker rest

/-- `SoCBusHandler.check_region_is_in`: both start and end (using the
requested `size`, not `size_pow2`) must lie within the container. -/
def check_region_is_in (region container : SoCRegion) : Bool :=
  decide (container.origin ≤ region.origin) &&
  decide (region.origin + region.size ≤ container.origin + container.size)

/-- `SoCBusHandler.check_region_is_io`: the region lies inside some
registered IO region. -/
def check_region_is_io (s : SoCBusHandler) (region : SoCRegion) : Bool :=
  s.io_regions.any fun p => check_region_is_in region p.2

/-- One step of the `while` loop of `alloc_region` searching inside a
search region that ends at `bound = search_region.origin +
search_region.size_pow2`.  `fuel` bounds the number of iterations (the
source's loop terminates for `size > 0` because every iteration strictly
increases `origin`; running out of fuel yields `none`, which is also the
result of normal exhaustion of the search region). -/
def alloc_scan (regions : List (String × SoCRegion)) (size size_pow2 bound : Nat)
    (cached : Bool) : Nat → Nat → Option SoCRegion
  | _, 0 => none
  | origin, fuel + 1 =>
    if origin + size < bound then
      if origin % size_pow2 ≠ 0 then
        alloc_scan regions size size_pow2 bound cached
          (origin + (size_pow2 - origin % size_pow2)) fuel
      else
        let candidate : SoCRegion :=
          { origin := origin, size := size, mode := "rw",
            cached := cached, linker := false, decode := true }
        if regions.any
            (fun p => (check_regions_overlap false [("0", p.2), ("1", candidate)]).isSome) then
          alloc_scan regions size size_pow2 bound cached (origin + size) fuel
        else
          some candidate
    else none

/-- `SoCBusHandler.alloc_region`: search the full address range for cached
regions, or the registered IO regions otherwise; return the first aligned,
non-overlapping candidate.  `none` models `OutOfSpaceError`. -/
def alloc_region (s : SoCBusHandler) (size : Nat) (cached : Bool) : Option SoCRegion :=
  let size_pow2 := 2 ^ log2_int size
  let search_regions : List SoCRegion :=
    if cached = false then
      s.io_regions.map (·.2)
    else
      [{ origin := 0, size := 2 ^ s.address_width - 1, mode := "rw",
         cached := true, linker := false, decode := true }]
  search_regions.findSome? fun sr =>
    alloc_scan s.regions size size_pow2 (sr.origin + sr.size_pow2) cached
      sr.origin (sr.origin + sr.size_pow2 + 1)

/-- `SoCBusHandler.add_region`, `SoCIORegion` branch (io regions always
carry a concrete origin here; cf. the header).  The new io region is
inserted *before* the overlap check, exactly as in the source. -/
def add_io_region (s : SoCBusHandler) (name : String) (region : SoCRegion) :
    SoCBusHandler × Option SoCErr :=
  if (s.regions.map Prod.fst).contains name || (s.io_regions.map Prod.fst).contains name then
    (s, some (.duplicateName name))
  else
    let s' := { s with io_regions := s.io_regions ++ [(name, region)] }
    match check_regions_overlap false s'.io_regions with
    | some (n0, n1) => (s', some (.ioOverlap n0 n1))
    | none          => (s', none)

/-- `SoCBusHandler.add_region`, `SoCRegion` branch.  With no origin the
region is allocated by `alloc_region` and recorded with no further check;
with an explicit origin the io/cached classification is validated, then
the region is inserted and the whole collection re-checked for overlap.
The overlap failure leaves the region inserted (the source raises after
`self.regions[name] = region`). -/
def add_region (s : SoCBusHandler) (name : String) (origin? : Option Nat)
    (size : Nat) (mode : String) (cached linker decode : Bool) :
    SoCBusHandler × Option SoCErr :=
  if (s.regions.map Prod.fst).contains name || (s.io_regions.map Prod.fst).contains name then
    (s, some (.duplicateName name))
  else
    match origin? with
    | none =>
      match alloc_region s size cached with
      | some region => ({ s with regions := s.regions ++ [(name, region)] }, none)
      | none        => (s, some .outOfSpace)
    | some origin =>
      let region : SoCRegion :=
        { origin := origin, size := size, mode := mode,
          cached := cached, linker := linker, decode := decode }
      if s.io_regions_check && check_region_is_io s region && region.cached then
        (s, some (.cachedInsideIoRegion name))
      else if s.io_regions_check && !check_region_is_io s region && !region.cached then
        (s, some (.notCachedOutsideIoRegion name))
      else
        let s' := { s with regions := s.regions ++ [(name, region)] }
        match check_regions_overlap false s'.regions with
        | some (n0, n1) => (s', some (.regionOverlap n0 n1))
        | none          => (s', none)

/-- migen `Module.finalize`: after running `do_finalize` once, the module
is marked finalized.  Only the flag matters for the state model. -/
def finalize (s : SoCBusHandler) : SoCBusHandler := { s with finalized := true }

/-- Interconnect topologies `do_finalize` can instantiate.  The
point-to-point constructor carries no decoders: the source wires master to
slave directly.  The shared/crossbar constructors carry the slave names,
each of which gets a decoder built from its region. -/
inductive Topology where
  | pointToPoint
  | interconnectShared (slaves : List String)
  | crossbar (slaves : List String)
deriving DecidableEq, Repr

/-- Failures of `do_finalize`: the explicit decode-disable `SoCError`, the
`StopIteration` crash when the region dict is empty in the one-master
one-slave case, the `KeyError` on an unknown `interconnect` kind, the
`KeyError` when a slave has no region, and the `SoCError` from
`SoCRegion.decoder` on a misaligned origin. -/
inductive FinalizeErr where
  | decodeDisable
  | noRegion
  | unknownInterconnect
  | missingSlaveRegion (name : String)
  | decoderMisaligned (name : String)
deriving DecidableEq, Repr

/-- Decoder construction for the slaves of a shared/crossbar interconnect:
`self.regions[n].decoder(self)` for each slave `n`; `decoder` raises when
the origin is not aligned on `size_pow2` (a power of two, so the source's
mask test `origin & (size - 1)` is `origin % size_pow2`). -/
def build_slave_decoders (regions : List (String × SoCRegion)) :
    List String → Except FinalizeErr Unit
  | [] => .ok ()
  | n :: rest =>
    match regions.lookup n with
    | none => .error (.missingSlaveRegion n)
    | some r =>
      if r.origin % r.size_pow2 ≠ 0 then .error (.decoderMisaligned n)
      else build_slave_decoders regions rest

/-- Shared/crossbar arm of `do_finalize`: the decode-disable check (fails
when more than one region exists and any region has `decode = False`),
then the interconnect-kind lookup, then decoder construction. -/
def shared_branch (s : SoCBusHandler) : Except FinalizeErr (Option Topology) :=
  if 1 < s.regions.length ∧ s.regions.any (fun p => !p.2.decode) then
    .error .decodeDisable
  else if s.interconnect = "shared" then
    match build_slave_decoders s.regions s.slaves with
    | .error e => .error e
    | .ok _ => .ok (some (.interconnectShared s.slaves))
  else if s.interconnect = "crossbar" then
    match build_slave_decoders s.regions s.slaves with
    | .error e => .error e
    | .ok _ => .ok (some (.crossbar s.slaves))
  else .error .unknownInterconnect

/-- `SoCBusHandler.do_finalize`: no interconnect at all without both a
master and a slave; point-to-point when there is exactly one master,
exactly one slave and `next(iter(self.regions.values()))` — the *first
inserted* region — has origin `0`; otherwise the shared/crossbar arm. -/
def do_finalize (s : SoCBusHandler) : Except FinalizeErr (Option Topology) :=
  if s.masters.length ≠ 0 ∧ s.slaves.length ≠ 0 then
    if s.masters.length = 1 ∧ s.slaves.length = 1 then
      match s.regions.head? with
      | none => .error .noRegion
      | some (_, r) =>
        if r.origin = 0 then .ok (some .pointToPoint)
        else shared_branch s
    else shared_branch s
  else .ok none

/-- `SoCLocHandler` state: a bounded integer-slot allocator mapping names
to locations in `[0, n_locs)` (explicitly pinned numbers may also be
`n_locs` itself, see `add`). -/
structure SoCLocHandler where
  name   : String
  n_locs : Nat
  locs   : List (String × Int)
deriving DecidableEq, Repr

/-- Errors raised (as `SoCError`) by `SoCLocHandler.add` / `alloc`. -/
inductive LocErr where
  | nameUsed
  | locUsed
  | negative
  | tooHigh
  | notEnough
deriving DecidableEq, Repr

/-- Loop of `SoCLocHandler.alloc`: `for n in range(n_locs): if n not in
self.locs.values(): return n`, rendered as a counter with the remaining
iteration count. -/
def loc_alloc_loop (values : List Int) : Nat → Nat → Option Int
  | _, 0 => none
  | n, count + 1 =>
    if values.contains (n : Int) then loc_alloc_loop values (n + 1) count
    else some (n : Int)

/-- `SoCLocHandler.alloc`: first unused location in `[0, n_locs)`; `none`
models the "Not enough Locations" `SoCError`. -/
def SoCLocHandler.alloc (h : SoCLocHandler) : Option Int :=
  loc_alloc_loop (h.locs.map (·.2)) 0 h.n_locs

/-- `SoCLocHandler.add`: reuse the existing number when
`use_loc_if_exists` and the name is present; otherwise check name unused,
requested number unused, then either auto-allocate (`n = None`) or check
`0 ≤ n ≤ n_locs` and pin it.  All checks precede the single mutation, so
the operation is atomic and modelled with `Except`. -/
def SoCLocHandler.add (h : SoCLocHandler) (name : String) (n? : Option Int)
    (use_loc_if_exists : Bool) : Except LocErr (SoCLocHandler × Int) :=
  if use_loc_if_exists && (h.locs.map Prod.fst).contains name then
    .ok (h, ((h.locs.lookup name).getD 0))
  else if (h.locs.map Prod.fst).contains name then
    .error .nameUsed
  else if (match n? with | some v => (h.locs.map Prod.snd).contains v | none => false) then
    .error .locUsed
  else
    match n? with
    | none =>
      match h.alloc with
      | some v => .ok ({ h with locs := h.locs ++ [(name, v)] }, v)
      | none   => .error .notEnough
    | some v =>
      if v < 0 then .error .negative
      else if (h.n_locs : Int) < v then .error .tooHigh
      else .ok ({ h with locs := h.locs ++ [(name, v)] }, v)

/-- `SoCCSRHandler.__init__` capacity formula:
`n_locs = alignment//8*(2**address_width)//paging`. -/
def csr_n_locs (alignment address_width paging : Nat) : Nat :=
  alignment / 8 * 2 ^ address_width / paging

/-- Configuration errors of `SoCCSRHandler.__init__`. -/
inductive CSRErr where
  | badDataWidth
  | badAddressWidth
  | badAlignment
  | alignmentLtDataWidth
  | badPaging
  | badOrdering
deriving DecidableEq, Repr

/-- `SoCCSRHandler.__init__` (without reserved CSRs, which are just `add`
calls): validate data width, address width, alignment, paging and
ordering against the supported sets, and build the underlying
`SoCLocHandler` with the computed `n_locs`. -/
def SoCCSRHandler.init? (data_width address_width alignment paging : Nat)
    (ordering : String) : Except CSRErr SoCLocHandler :=
  if ¬ ([8, 32].contains data_width) then .error .badDataWidth
  else if ¬ ([14, 15, 16, 17, 18].contains address_width) then .error .badAddressWidth
  else if ¬ ([32].contains alignment) then .error .badAlignment
  else if alignment < data_width then .error .alignmentLtDataWidth
  else if ¬ ([0x400, 0x800, 0x1000, 0x2000, 0x4000].contains paging) then .error .badPaging
  else if ¬ (["big", "little"].contains ordering) then .error .badOrdering
  else .ok { name := "CSR", n_locs := csr_n_locs alignment address_width paging, locs := [] }

/-- `SoCIRQHandler` state: the underlying location allocator plus the
`enabled` flag (`False` at creation, set by `enable`). -/
structure SoCIRQHandler where
  loc     : SoCLocHandler
  enabled : Bool
deriving DecidableEq, Repr

/-- Errors raised by `SoCIRQHandler.add`. -/
inductive IRQErr where
  | notSupported
  | loc (e : LocErr)
deriving DecidableEq, Repr

/-- `SoCIRQHandler.enable`. -/
def SoCIRQHandler.enable (h : SoCIRQHandler) : SoCIRQHandler :=
  { h with enabled := true }

/-- `SoCIRQHandler.add`: refuse (raising `SoCError`) before any location
bookkeeping when the handler is not enabled; otherwise delegate to
`SoCLocHandler.add`. -/
def SoCIRQHandler.add (h : SoCIRQHandler) (name : String) (n? : Option Int)
    (use_loc_if_exists : Bool) : Except IRQErr (SoCIRQHandler × Int) :=
  if h.enabled then
    match h.loc.add name n? use_loc_if_exists with
    | .error e => .error (.loc e)
    | .ok (l, v) => .ok ({ h with loc := l }, v)
  else .error .notSupported

/-- Fold of `SoCLocHandler.add` with auto-allocation over a list of
names, stopping at the first error (each reservation in the source is a
separate `add(name)` call). -/
def add_names (h : SoCLocHandler) : List String → Except LocErr SoCLocHandler
  | [] => .ok h
  | n :: rest =>
    match h.add n none false with
    | .error e => .error e
    | .ok (h', _) => add_names h' rest

/-! ### Basic lemmas about the overlap check and the allocator -/

/-- The pairwise-skip relation established by a clean overlap scan: the
pair involves a linker region, or the `size_pow2` footprints are
separated. -/
def RegionRel (p q : String × SoCRegion) : Prop :=
  (p.2.linker || q.2.linker) = true ∨
    q.2.origin + q.2.size_pow2 ≤ p.2.origin ∨
    p.2.origin + p.2.size_pow2 ≤ q.2.origin

instance : DecidablePred fun pq : (String × SoCRegion) × (String × SoCRegion) =>
    RegionRel pq.1 pq.2 := fun _ => by unfold RegionRel; infer_instance

theorem pair_overlap_none_iff (na nc : String) (a c : SoCRegion) :
    check_regions_overlap false [(na, a), (nc, c)] = none ↔ RegionRel (na, a) (nc, c) := by
  unfold RegionRel
  by_cases hl : (a.linker || c.linker) = true
  · simp [check_regions_overlap, regions_overlap_inner, hl]
  · by_cases h1 : c.origin + c.size_pow2 ≤ a.origin
    · simp [check_regions_overlap, regions_overlap_inner, hl, h1]
    · by_cases h2 : a.origin + a.size_pow2 ≤ c.origin
      · simp [check_regions_overlap, regions_overlap_inner, hl, h1, h2]
      · simp [check_regions_overlap, regions_overlap_inner, hl, h1, h2]

theorem regions_overlap_inner_none {n0 : String} {r0 : SoCRegion}
    {l : List (String × SoCRegion)}
    (h : regions_overlap_inner n0 r0 false l = none) :
    ∀ p ∈ l, RegionRel (n0, r0) p := by
  induction l with
  | nil => intro p hp; cases hp
  | cons q rest ih =>
    intro p hp
    obtain ⟨n1, r1⟩ := q
    unfold regions_overlap_inner at h
    rcases List.mem_cons.mp hp with rfl | hp
    · by_cases hl : (r0.linker || r1.linker) = true
      · exact Or.inl hl
      · by_cases h1 : r1.origin + r1.size_pow2 ≤ r0.origin
        · exact Or.inr (Or.inl h1)
        · by_cases h2 : r0.origin + r0.size_pow2 ≤ r1.origin
          · exact Or.inr (Or.inr h2)
          · simp [hl, h1, h2] at h
    · by_cases hl : (r0.linker || r1.linker) = true
      · simp only [hl, Bool.not_false, Bool.and_true, if_true] at h
        exact ih h p hp
      · by_cases h1 : r1.origin + r1.size_pow2 ≤ r0.origin
        · simp only [hl, h1, Bool.not_false, Bool.and_true, if_true, if_false] at h
          exact ih h p hp
        · by_cases h2 : r0.origin + r0.size_pow2 ≤ r1.origin
          · simp only [hl, h1, h2, Bool.not_false, Bool.and_true, if_true, if_false] at h
            exact ih h p hp
          · simp [hl, h1, h2] at h

theorem check_regions_overlap_none_pairwise {l : List (String × SoCRegion)}
    (h : check_regions_overlap false l = none) : l.Pairwise RegionRel := by
  induction l with
  | nil => exact List.Pairwise.nil
  | cons q rest ih =>
    obtain ⟨n0, r0⟩ := q
    unfold check_regions_overlap at h
    cases hi : regions_overlap_inner n0 r0 false rest with
    | some p => rw [hi] at h; cases h
    | none =>
      rw [hi] at h
      exact List.Pairwise.cons (regions_overlap_inner_none hi) (ih h)

theorem alloc_scan_some {regions : List (String × SoCRegion)}
    {size size_pow2 bound : Nat} {cached : Bool} {origin fuel : Nat} {cand : SoCRegion}
    (h : alloc_scan regions size size_pow2 bound cached origin fuel = some cand) :
    cand.size = size ∧ cand.linker = false ∧ cand.cached = cached ∧
      cand.origin % size_pow2 = 0 ∧
      ∀ p ∈ regions, check_regions_overlap false [("0", p.2), ("1", cand)] = none := by
  induction fuel generalizing origin with
  | zero => cases h
  | succ fuel ih =>
    unfold alloc_scan at h
    by_cases hb : origin + size < bound
    · rw [if_pos hb] at h
      by_cases hal : origin % size_pow2 ≠ 0
      · rw [if_pos hal] at h
        exact ih h
      · rw [if_neg hal] at h
        by_cases hov : regions.any (fun p =>
            (check_regions_overlap false [("0", p.2),
              ("1", ⟨origin, size, "rw", cached, false, true⟩)]).isSome) = true
        · rw [if_pos hov] at h
          exact ih h
        · rw [if_neg hov] at h
          injection h with h
          subst h
          push_neg at hal
          refine ⟨rfl, rfl, rfl, hal, ?_⟩
          intro p hp
          rw [List.any_eq_true] at hov
          push_neg at hov
          have := hov p hp
          cases hc : check_regions_overlap false
              [("0", p.2), ("1", ⟨origin, size, "rw", cached, false, true⟩)] with
          | none => rfl
          | some v => rw [hc] at this; simp at this
    · rw [if_neg hb] at h; cases h

theorem alloc_region_some {s : SoCBusHandler} {size : Nat} {cached : Bool} {r : SoCRegion}
    (h : alloc_region s size cached = some r) :
    r.size = size ∧ r.linker = false ∧ r.origin % r.size_pow2 = 0 ∧
      ∀ p ∈ s.regions, check_regions_overlap false [("0", p.2), ("1", r)] = none := by
  unfold alloc_region at h
  obtain ⟨sr, -, hsr⟩ := List.exists_of_findSome?_eq_some h
  obtain ⟨h1, h2, h3, h4, h5⟩ := alloc_scan_some hsr
  refine ⟨h1, h2, ?_, h5⟩
  rw [SoCRegion.size_pow2, h1]
  exact h4

/-! ### C5: automatic allocation is aligned -/

/-- C5 — every region recorded by `add_region` without an explicit origin
(i.e. placed by `alloc_region`) has `origin mod size_pow2 = 0`. -/
theorem c5_alloc_alignment (s : SoCBusHandler) (name : String) (size : Nat)
    (mode : String) (cached linker decode : Bool) (s' : SoCBusHandler)
    (h : add_region s name none size mode cached linker decode = (s', none)) :
    ∃ r, s'.regions = s.regions ++ [(name, r)] ∧ r.origin % r.size_pow2 = 0 := by
  unfold add_region at h
  by_cases hdup : ((s.regions.map Prod.fst).contains name ||
      (s.io_regions.map Prod.fst).contains name) = true
  · rw [if_pos hdup] at h; cases h
  · rw [if_neg hdup] at h
    cases ha : alloc_region s size cached with
    | none => rw [ha] at h; cases h
    | some region =>
      rw [ha] at h
      injection h with h1 _
      refine ⟨region, ?_, (alloc_region_some ha).2.2.1⟩
      rw [← h1]

/-- C5 witness: allocating a `0x10000`-byte region on a bus that already
has a `rom` region at `[0, 0x2000)` records an aligned region. -/
theorem c5_alloc_alignment_witness :
    ∃ r, ((add_region
        ⟨"wishbone", 32, 32, "shared", [], [],
          [("rom", ⟨0, 0x2000, "r", true, false, true⟩)], [], true, false⟩
        "ram" none 0x10000 "rw" true false true).1).regions =
        [("rom", ⟨0, 0x2000, "r", true, false, true⟩)] ++ [("ram", r)] ∧
      r.origin % r.size_pow2 = 0 :=
  c5_alloc_alignment
    ⟨"wishbone", 32, 32, "shared", [], [],
      [("rom", ⟨0, 0x2000, "r", true, false, true⟩)], [], true, false⟩
    "ram" 0x10000 "rw" true false true
    (add_region
      ⟨"wishbone", 32, 32, "shared", [], [],
        [("rom", ⟨0, 0x2000, "r", true, false, true⟩)], [], true, false⟩
      "ram" none 0x10000 "rw" true false true).1
    (by decide)

/-! ### C6: explicit location numbers are bounds-checked -/

/-- C6 — with a fresh name and a number not already assigned,
`SoCLocHandler.add` with an explicit number `n` succeeds exactly when
`0 ≤ n ≤ n_locs`, and fails with the negative / too-high bounds error
otherwise. -/
theorem c6_explicit_location_bounds (h : SoCLocHandler) (name : String) (n : Int)
    (hname : name ∉ h.locs.map Prod.fst) (hn : n ∉ h.locs.map Prod.snd) :
    ((∃ h', h.add name (some n) false = .ok h') ↔ 0 ≤ n ∧ n ≤ (h.n_locs : Int)) ∧
    (n < 0 → h.add name (some n) false = .error .negative) ∧
    ((h.n_locs : Int) < n → h.add name (some n) false = .error .tooHigh) := by
  have hc1 : (h.locs.map Prod.fst).contains name = false := by
    simpa using hname
  have hc2 : (h.locs.map Prod.snd).contains n = false := by
    simpa using hn
  simp only [SoCLocHandler.add, hc1, hc2, Bool.and_false, Bool.false_eq_true, if_false]
  refine ⟨?_, ?_, ?_⟩
  · constructor
    · rintro ⟨h', hh⟩
      by_cases hneg : n < 0
      · rw [if_pos hneg] at hh; cases hh
      · rw [if_neg hneg] at hh
        by_cases hhi : (h.n_locs : Int) < n
        · rw [if_pos hhi] at hh; cases hh
        · omega
    · rintro ⟨h0, h1⟩
      rw [if_neg (by omega), if_neg (by omega)]
      exact ⟨_, rfl⟩
  · intro hneg
    rw [if_pos hneg]
  · intro hhi
    rw [if_neg (by omega), if_pos hhi]

/-- C6 witness: on an allocator with 4 slots and locations `{0, 2}` used,
pinning `"x"` to `2` is impossible (slot taken is out of scope here, so we
use `1`): explicit `1` succeeds, explicit `-1` and `5` fail. -/
theorem c6_explicit_location_bounds_witness :
    ("x" ∉ ([("a", (0 : Int)), ("b", 2)].map Prod.fst)) ∧
    ((1 : Int) ∉ ([("a", (0 : Int)), ("b", 2)].map Prod.snd)) ∧
    ((∃ h', SoCLocHandler.add ⟨"IRQ", 4, [("a", 0), ("b", 2)]⟩ "x" (some 1) false = .ok h') ↔
      (0 ≤ (1 : Int) ∧ (1 : Int) ≤ ((4 : Nat) : Int))) := by
  refine ⟨by decide, by decide, ?_⟩
  exact (c6_explicit_location_bounds ⟨"IRQ", 4, [("a", 0), ("b", 2)]⟩ "x" 1
    (by decide) (by decide)).1

/-! ### C7: alloc returns the least free location, order-independently -/

theorem loc_alloc_loop_congr {vs1 vs2 : List Int}
    (hset : ∀ k : Int, k ∈ vs1 ↔ k ∈ vs2) :
    ∀ count n, loc_alloc_loop vs1 n count = loc_alloc_loop vs2 n count := by
  intro count
  induction count with
  | zero => intro n; rfl
  | succ c ih =>
    intro n
    unfold loc_alloc_loop
    have hc : vs1.contains (n : Int) = vs2.contains (n : Int) := by
      simp only [List.contains, List.elem_eq_mem]
      exact decide_eq_decide.mpr (hset _)
    rw [hc]
    by_cases hmem : vs2.contains (n : Int) = true
    · rw [hmem]
      simp only [if_true]
      exact ih (n + 1)
    · rw [Bool.eq_false_iff.mpr hmem]
      simp

theorem loc_alloc_loop_spec {vs : List Int} :
    ∀ count n v, loc_alloc_loop vs n count = some v →
      (n : Int) ≤ v ∧ v < (n : Int) + count ∧ v ∉ vs ∧
        ∀ m : Int, (n : Int) ≤ m → m < v → m ∈ vs := by
  intro count
  induction count with
  | zero => intro n v hv; cases hv
  | succ c ih =>
    intro n v hv
    unfold loc_alloc_loop at hv
    by_cases hmem : vs.contains (n : Int) = true
    · rw [hmem] at hv
      simp only [if_true] at hv
      obtain ⟨h1, h2, h3, h4⟩ := ih (n + 1) v hv
      refine ⟨by push_cast at h1 ⊢; omega, by push_cast at h2 ⊢; omega, h3, ?_⟩
      intro m hm1 hm2
      rcases eq_or_lt_of_le hm1 with rfl | hlt
      · rw [← List.elem_iff]
        exact hmem
      · exact h4 m (by push_cast at hlt ⊢; omega) hm2
    · rw [Bool.eq_false_iff.mpr hmem] at hv
      simp only [Bool.false_eq_true, if_false, Option.some.injEq] at hv
      subst hv
      refine ⟨le_refl _, by push_cast; omega, ?_, ?_⟩
      · intro hin
        exact hmem (List.elem_iff.mpr hin)
      · intro m hm1 hm2
        omega

/-- C7 — `SoCLocHandler.alloc` returns the smallest integer in
`[0, n_locs)` not currently assigned, and its result depends only on the
set of assigned numbers: two allocators with the same capacity whose
location maps use the same set of numbers (whatever the names and the
insertion order) allocate the same slot. -/
theorem c7_alloc_least_free_and_order_independent (h1 h2 : SoCLocHandler)
    (hn : h1.n_locs = h2.n_locs)
    (hset : ∀ k : Int, k ∈ h1.locs.map Prod.snd ↔ k ∈ h2.locs.map Prod.snd) :
    h1.alloc = h2.alloc ∧
    ∀ v, h1.alloc = some v →
      0 ≤ v ∧ v < (h1.n_locs : Int) ∧ v ∉ h1.locs.map Prod.snd ∧
        ∀ m : Int, 0 ≤ m → m < v → m ∈ h1.locs.map Prod.snd := by
  constructor
  · unfold SoCLocHandler.alloc
    rw [hn]
    exact loc_alloc_loop_congr hset h2.n_locs 0
  · intro v hv
    obtain ⟨h1', h2', h3', h4'⟩ := loc_alloc_loop_spec h1.n_locs 0 v hv
    exact ⟨h1', by simpa using h2', h3', fun m hm1 hm2 => h4' m hm1 hm2⟩

/-- C7 witness: allocators with used sets `{0, 2}` recorded in different
orders under different names both allocate slot `1`, and `1` is the least
free slot. -/
theorem c7_alloc_least_free_witness :
    SoCLocHandler.alloc ⟨"IRQ", 4, [("a", 0), ("b", 2)]⟩ =
      SoCLocHandler.alloc ⟨"CSR", 4, [("y", 2), ("z", 0)]⟩ ∧
    (0 : Int) ≤ 1 ∧ (1 : Int) < ((4 : Nat) : Int) ∧
      (1 : Int) ∉ [("a", (0 : Int)), ("b", 2)].map Prod.snd ∧
      ∀ m : Int, 0 ≤ m → m < 1 → m ∈ [("a", (0 : Int)), ("b", 2)].map Prod.snd := by
  have hset : ∀ k : Int, k ∈ ([("a", (0 : Int)), ("b", 2)].map Prod.snd) ↔
      k ∈ ([("y", (2 : Int)), ("z", 0)].map Prod.snd) := by
    intro k
    simp only [List.map, List.mem_cons, List.not_mem_nil, or_false]
    tauto
  have := c7_alloc_least_free_and_order_independent
    ⟨"IRQ", 4, [("a", 0), ("b", 2)]⟩ ⟨"CSR", 4, [("y", 2), ("z", 0)]⟩ rfl hset
  refine ⟨this.1, ?_⟩
  have hv := this.2 1 (by decide)
  exact hv

/-! ### C8: CSR capacity scenario -/

instance {ε α : Type} [DecidableEq ε] [DecidableEq α] : DecidableEq (Except ε α) :=
  fun a b =>
    match a, b with
    | .error e1, .error e2 =>
      if h : e1 = e2 then .isTrue (by rw [h]) else .isFalse (by simp [h])
    | .ok a1, .ok a2 =>
      if h : a1 = a2 then .isTrue (by rw [h]) else .isFalse (by simp [h])
    | .error _, .ok _ => .isFalse (by simp)
    | .ok _, .error _ => .isFalse (by simp)

/-- C8 — a CSR space with data width 32, address width 14, alignment 32
and paging `0x800` has `n_locs = 32`; reserving 32 distinct names without
explicit numbers succeeds and a 33rd such reservation fails with the
capacity error. -/
theorem c8_csr_capacity :
    SoCCSRHandler.init? 32 14 32 0x800 "big" = .ok ⟨"CSR", 32, []⟩ ∧
    (add_names ⟨"CSR", 32, []⟩ ((List.range 32).map fun i => "csr" ++ toString i)).isOk = true ∧
    add_names ⟨"CSR", 32, []⟩ ((List.range 33).map fun i => "csr" ++ toString i) =
      .error .notEnough := by
  refine ⟨by decide, by decide, by decide⟩

/-! ### C10: interrupt adds require the handler to be enabled -/

/-- C10 — `SoCIRQHandler.add` fails whenever the handler is not enabled,
whatever the other arguments (and, raising before any bookkeeping, leaves
the location map untouched); once `enable` has run it delegates exactly to
the generic `SoCLocHandler.add`. -/
theorem c10_irq_add_gated (h : SoCIRQHandler) (name : String) (n? : Option Int)
    (u : Bool) (hd : h.enabled = false) :
    h.add name n? u = .error .notSupported ∧
    (h.enable).add name n? u =
      (match h.loc.add name n? u with
        | .error e => .error (.loc e)
        | .ok (l, v) => .ok (⟨l, true⟩, v)) := by
  constructor
  · unfold SoCIRQHandler.add
    rw [hd]
    simp
  · rfl

/-- C10 witness: a fresh (disabled) IRQ handler rejects an add; after
`enable`, the same add delegates to the location allocator. -/
theorem c10_irq_add_gated_witness :
    SoCIRQHandler.add ⟨⟨"IRQ", 32, []⟩, false⟩ "uart" none false = .error .notSupported :=
  (c10_irq_add_gated ⟨⟨"IRQ", 32, []⟩, false⟩ "uart" none false rfl).1

/-! ### C1: the non-overlap invariant -/

theorem add_io_region_regions (s : SoCBusHandler) (name : String) (region : SoCRegion) :
    ((add_io_region s name region).1).regions = s.regions := by
  unfold add_io_region
  by_cases hdup : ((s.regions.map Prod.fst).contains name ||
      (s.io_regions.map Prod.fst).contains name) = true
  · rw [if_pos hdup]
  · rw [if_neg hdup]
    dsimp only
    cases hc : check_regions_overlap false (s.io_regions ++ [(name, region)]) with
    | some p => obtain ⟨n0, n1⟩ := p; rfl
    | none => rfl

theorem add_region_success_cases {s : SoCBusHandler} {name : String}
    {origin? : Option Nat} {size : Nat} {mode : String} {cached linker decode : Bool}
    {s' : SoCBusHandler}
    (h : add_region s name origin? size mode cached linker decode = (s', none)) :
    (s'.regions = s.regions ++
        [(name, ⟨(origin?.getD 0), size, mode, cached, linker, decode⟩)] ∧
      check_regions_overlap false s'.regions = none) ∨
    (∃ region, alloc_region s size cached = some region ∧
      s'.regions = s.regions ++ [(name, region)]) := by
  unfold add_region at h
  by_cases hdup : ((s.regions.map Prod.fst).contains name ||
      (s.io_regions.map Prod.fst).contains name) = true
  · rw [if_pos hdup] at h; cases h
  · rw [if_neg hdup] at h
    cases origin? with
    | none =>
      cases ha : alloc_region s size cached with
      | none => rw [ha] at h; cases h
      | some region =>
        rw [ha] at h
        injection h with h1 _
        exact Or.inr ⟨region, rfl, by rw [← h1]⟩
    | some origin =>
      dsimp only at h
      by_cases hio1 : (s.io_regions_check && check_region_is_io s
          ⟨origin, size, mode, cached, linker, decode⟩ &&
          (⟨origin, size, mode, cached, linker, decode⟩ : SoCRegion).cached) = true
      · rw [if_pos hio1] at h; cases h
      · rw [if_neg hio1] at h
        by_cases hio2 : (s.io_regions_check && !check_region_is_io s
            ⟨origin, size, mode, cached, linker, decode⟩ &&
            !(⟨origin, size, mode, cached, linker, decode⟩ : SoCRegion).cached) = true
        · rw [if_pos hio2] at h; cases h
        · rw [if_neg hio2] at h
          cases hc : check_regions_overlap false
              (s.regions ++ [(name, ⟨origin, size, mode, cached, linker, decode⟩)]) with
          | some p => obtain ⟨n0, n1⟩ := p; rw [hc] at h; cases h
          | none =>
            rw [hc] at h
            injection h with h1 _
            subst h1
            exact Or.inl ⟨rfl, hc⟩

/-- States of a `SoCBusHandler` reachable from an empty region collection
by successful `add_region` calls (either kind of region; an allocation
without explicit origin is the `alloc_region` path of `add_region`). -/
inductive Reachable : SoCBusHandler → Prop where
  | init (s : SoCBusHandler) : s.regions = [] → Reachable s
  | add_mem {s s' : SoCBusHandler} (name : String) (origin? : Option Nat) (size : Nat)
      (mode : String) (cached linker decode : Bool) :
      Reachable s → add_region s name origin? size mode cached linker decode = (s', none) →
      Reachable s'
  | add_io {s s' : SoCBusHandler} (name : String) (region : SoCRegion) :
      Reachable s → add_io_region s name region = (s', none) → Reachable s'

/-- Membership of an address in a region's decoded footprint
`[origin, origin + size_pow2)`. -/
def interval_mem (r : SoCRegion) (a : Nat) : Prop :=
  r.origin ≤ a ∧ a < r.origin + r.size_pow2

theorem reachable_pairwise {s : SoCBusHandler} (h : Reachable s) :
    s.regions.Pairwise RegionRel := by
  induction h with
  | init s h0 => rw [h0]; exact List.Pairwise.nil
  | add_mem name origin? size mode cached linker decode hreach hstep ih =>
    rcases add_region_success_cases hstep with ⟨-, hchk⟩ | ⟨region, halloc, hr⟩
    · exact check_regions_overlap_none_pairwise hchk
    · rw [hr]
      rw [List.pairwise_append]
      refine ⟨ih, List.pairwise_singleton _ _, ?_⟩
      intro p hp q hq
      rw [List.mem_singleton] at hq
      subst hq
      exact (pair_overlap_none_iff "0" "1" p.2 region).mp
        ((alloc_region_some halloc).2.2.2 p hp)
  | @add_io s1 s2 name region hreach hstep ih =>
    have h1 : (add_io_region s1 name region).1 = s2 := congrArg Prod.fst hstep
    rw [← h1, add_io_region_regions]
    exact ih

/-- C1 — after any sequence of successful `add_region` / `alloc_region`
calls starting from an empty region collection, any two distinct
non-linker regions of the handler have non-intersecting
`[origin, origin + size_pow2)` intervals. -/
theorem c1_non_overlap_invariant (s : SoCBusHandler) (h : Reachable s) :
    s.regions.Pairwise (fun p q => p.2.linker = false → q.2.linker = false →
      ∀ a, ¬ (interval_mem p.2 a ∧ interval_mem q.2 a)) := by
  refine (reachable_pairwise h).imp ?_
  intro p q hrel hp hq a
  rintro ⟨⟨hpa1, hpa2⟩, ⟨hqa1, hqa2⟩⟩
  rcases hrel with hl | hsep | hsep
  · rw [hp, hq] at hl
    simp at hl
  · omega
  · omega

/-- C1 witness: a bus with `rom` added at the explicit origin `0` and a
`ram` region then placed by the allocator satisfies the pairwise
non-intersection property. -/
theorem c1_non_overlap_invariant_witness :
    (((add_region (add_region
        ⟨"wishbone", 32, 32, "shared", [], [], [], [], true, false⟩
        "rom" (some 0) 0x2000 "r" true false true).1
        "ram" none 0x10000 "rw" true false true).1).regions).Pairwise
      (fun p q => p.2.linker = false → q.2.linker = false →
        ∀ a, ¬ (interval_mem p.2 a ∧ interval_mem q.2 a)) := by
  have h0 : Reachable (⟨"wishbone", 32, 32, "shared", [], [], [], [], true, false⟩ :
      SoCBusHandler) := Reachable.init _ rfl
  have h1 : Reachable (add_region
      ⟨"wishbone", 32, 32, "shared", [], [], [], [], true, false⟩
      "rom" (some 0) 0x2000 "r" true false true).1 :=
    Reachable.add_mem "rom" (some 0) 0x2000 "r" true false true h0 (by decide)
  have h2 : Reachable (add_region (add_region
      ⟨"wishbone", 32, 32, "shared", [], [], [], [], true, false⟩
      "rom" (some 0) 0x2000 "r" true false true).1
      "ram" none 0x10000 "rw" true false true).1 :=
    Reachable.add_mem "ram" none 0x10000 "rw" true false true h1 (by decide)
  exact c1_non_overlap_invariant _ h2

/-! ### C9: the overlap failure of an explicit add is not atomic -/

/-- C9 — when `add_region` with an explicit origin reports an overlap, the
offending region has already been inserted: the resulting collection is
the old one with the new region appended (the source raises only after
`self.regions[name] = region`). -/
theorem c9_overlap_error_keeps_region (s : SoCBusHandler) (name : String)
    (origin size : Nat) (mode : String) (cached linker decode : Bool)
    (s' : SoCBusHandler) (n0 n1 : String)
    (h : add_region s name (some origin) size mode cached linker decode =
      (s', some (.regionOverlap n0 n1))) :
    s'.regions = s.regions ++ [(name, ⟨origin, size, mode, cached, linker, decode⟩)] ∧
      (name, (⟨origin, size, mode, cached, linker, decode⟩ : SoCRegion)) ∈ s'.regions := by
  unfold add_region at h
  by_cases hdup : ((s.regions.map Prod.fst).contains name ||
      (s.io_regions.map Prod.fst).contains name) = true
  · rw [if_pos hdup] at h
    simp at h
  · rw [if_neg hdup] at h
    dsimp only at h
    by_cases hio1 : (s.io_regions_check && check_region_is_io s
        ⟨origin, size, mode, cached, linker, decode⟩ &&
        (⟨origin, size, mode, cached, linker, decode⟩ : SoCRegion).cached) = true
    · rw [if_pos hio1] at h
      simp at h
    · rw [if_neg hio1] at h
      by_cases hio2 : (s.io_regions_check && !check_region_is_io s
          ⟨origin, size, mode, cached, linker, decode⟩ &&
          !(⟨origin, size, mode, cached, linker, decode⟩ : SoCRegion).cached) = true
      · rw [if_pos hio2] at h
        simp at h
      · rw [if_neg hio2] at h
        cases hc : check_regions_overlap false
            (s.regions ++ [(name, ⟨origin, size, mode, cached, linker, decode⟩)]) with
        | none =>
          rw [hc] at h
          simp at h
        | some p =>
          obtain ⟨m0, m1⟩ := p
          rw [hc] at h
          injection h with h1 _
          subst h1
          exact ⟨rfl, List.mem_append_right _ (List.mem_singleton.mpr rfl)⟩

/-- C9 witness: adding `b` at `[0x500, 0x600)` on a bus whose region `a`
occupies `[0, 0x1000)` fails with the overlap error, yet `b` is in the
resulting collection. -/
theorem c9_overlap_error_keeps_region_witness :
    add_region
        ⟨"wishbone", 32, 32, "shared", [], [],
          [("a", ⟨0, 0x1000, "rw", true, false, true⟩)], [], true, false⟩
        "b" (some 0x500) 0x100 "rw" true false true =
      ((add_region
        ⟨"wishbone", 32, 32, "shared", [], [],
          [("a", ⟨0, 0x1000, "rw", true, false, true⟩)], [], true, false⟩
        "b" (some 0x500) 0x100 "rw" true false true).1,
       some (.regionOverlap "a" "b")) ∧
    ("b", (⟨0x500, 0x100, "rw", true, false, true⟩ : SoCRegion)) ∈
      ((add_region
        ⟨"wishbone", 32, 32, "shared", [], [],
          [("a", ⟨0, 0x1000, "rw", true, false, true⟩)], [], true, false⟩
        "b" (some 0x500) 0x100 "rw" true false true).1).regions := by
  refine ⟨by decide, ?_⟩
  exact (c9_overlap_error_keeps_region
    ⟨"wishbone", 32, 32, "shared", [], [],
      [("a", ⟨0, 0x1000, "rw", true, false, true⟩)], [], true, false⟩
    "b" 0x500 0x100 "rw" true false true _ "a" "b" (by decide)).2

/-! ### C3: there is no post-finalize guard on the add operations -/

/-- C3 counterexample — on a finalized handler, `add_region` still
succeeds (no error of any kind is raised) and mutates the region
collection, contradicting the claim that adding after finalize fails with
a state error and leaves the collections unchanged. -/
theorem c3_post_finalize_add_succeeds :
    (finalize ⟨"wishbone", 32, 32, "shared", [], [], [], [], true, false⟩).finalized = true ∧
    (add_region (finalize ⟨"wishbone", 32, 32, "shared", [], [], [], [], true, false⟩)
      "rom" (some 0) 0x1000 "rw" true false true).2 = none ∧
    ((add_region (finalize ⟨"wishbone", 32, 32, "shared", [], [], [], [], true, false⟩)
      "rom" (some 0) 0x1000 "rw" true false true).1).regions ≠
      (finalize ⟨"wishbone", 32, 32, "shared", [], [], [], [], true, false⟩).regions := by
  refine ⟨rfl, by decide, by decide⟩

/-- C3 amended — `add_region` never reads the finalized flag: on a
finalized handler it performs exactly the computation it performs on the
unfinalized one (same error or success, same mutation of the collections),
so an add after finalize is not rejected. -/
theorem c3_add_region_ignores_finalize (s : SoCBusHandler) (name : String)
    (origin? : Option Nat) (size : Nat) (mode : String) (cached linker decode : Bool) :
    add_region (finalize s) name origin? size mode cached linker decode =
      (finalize (add_region s name origin? size mode cached linker decode).1,
       (add_region s name origin? size mode cached linker decode).2) := by
  obtain ⟨std, dw, aw, ic, ms, sl, rg, io, chk, fin⟩ := s
  have hfin : finalize ⟨std, dw, aw, ic, ms, sl, rg, io, chk, fin⟩ =
      ⟨std, dw, aw, ic, ms, sl, rg, io, chk, true⟩ := rfl
  rw [hfin]
  unfold add_region
  dsimp only
  by_cases hdup : ((rg.map Prod.fst).contains name || (io.map Prod.fst).contains name) = true
  · rw [if_pos hdup, if_pos hdup]
    rfl
  · rw [if_neg hdup, if_neg hdup]
    cases origin? with
    | none =>
      dsimp only
      have ha : alloc_region ⟨std, dw, aw, ic, ms, sl, rg, io, chk, true⟩ size cached =
          alloc_region ⟨std, dw, aw, ic, ms, sl, rg, io, chk, fin⟩ size cached := rfl
      rw [ha]
      cases halloc : alloc_region ⟨std, dw, aw, ic, ms, sl, rg, io, chk, fin⟩ size cached with
      | some region => rfl
      | none => rfl
    | some origin =>
      dsimp only
      have hio : check_region_is_io ⟨std, dw, aw, ic, ms, sl, rg, io, chk, true⟩ =
          check_region_is_io ⟨std, dw, aw, ic, ms, sl, rg, io, chk, fin⟩ := rfl
      rw [hio]
      by_cases h1 : (chk && check_region_is_io ⟨std, dw, aw, ic, ms, sl, rg, io, chk, fin⟩
          ⟨origin, size, mode, cached, linker, decode⟩ && cached) = true
      · rw [if_pos h1, if_pos h1]
        rfl
      · rw [if_neg h1, if_neg h1]
        by_cases h2 : (chk && !check_region_is_io ⟨std, dw, aw, ic, ms, sl, rg, io, chk, fin⟩
            ⟨origin, size, mode, cached, linker, decode⟩ && !cached) = true
        · rw [if_pos h2, if_pos h2]
          rfl
        · rw [if_neg h2, if_neg h2]
          cases hc : check_regions_overlap false
              (rg ++ [(name, ⟨origin, size, mode, cached, linker, decode⟩)]) with
          | some p => obtain ⟨n0, n1⟩ := p; rfl
          | none => rfl

/-! ### C2: topology selection at finalize -/

theorem shared_branch_ne_p2p (s : SoCBusHandler) :
    shared_branch s ≠ .ok (some .pointToPoint) := by
  unfold shared_branch
  by_cases h1 : (1 < s.regions.length ∧ s.regions.any fun p => !p.2.decode)
  · rw [if_pos h1]
    intro hh
    cases hh
  · rw [if_neg h1]
    by_cases h2 : s.interconnect = "shared"
    · rw [if_pos h2]
      cases hb : build_slave_decoders s.regions s.slaves with
      | error e => intro hh; cases hh
      | ok u => intro hh; simp at hh
    · rw [if_neg h2]
      by_cases h3 : s.interconnect = "crossbar"
      · rw [if_pos h3]
        cases hb : build_slave_decoders s.regions s.slaves with
        | error e => intro hh; cases hh
        | ok u => intro hh; simp at hh
      · rw [if_neg h3]
        intro hh
        cases hh

/-- C2 counterexample — a bus with exactly one master and one slave whose
own region has origin `0` is nevertheless not wired point-to-point,
because `do_finalize` tests the *first inserted* region (here `a` at
`0x10000000`), not the slave's region. -/
theorem c2_p2p_counterexample :
    (⟨"wishbone", 32, 32, "shared", ["m0"], ["b"],
      [("a", ⟨0x10000000, 0x1000, "rw", true, false, true⟩),
       ("b", ⟨0, 0x1000, "rw", true, false, true⟩)], [], true, false⟩ :
        SoCBusHandler).masters.length = 1 ∧
    (⟨"wishbone", 32, 32, "shared", ["m0"], ["b"],
      [("a", ⟨0x10000000, 0x1000, "rw", true, false, true⟩),
       ("b", ⟨0, 0x1000, "rw", true, false, true⟩)], [], true, false⟩ :
        SoCBusHandler).slaves = ["b"] ∧
    ((⟨"wishbone", 32, 32, "shared", ["m0"], ["b"],
      [("a", ⟨0x10000000, 0x1000, "rw", true, false, true⟩),
       ("b", ⟨0, 0x1000, "rw", true, false, true⟩)], [], true, false⟩ :
        SoCBusHandler).regions.lookup "b").map (fun r => r.origin) = some 0 ∧
    do_finalize
      ⟨"wishbone", 32, 32, "shared", ["m0"], ["b"],
        [("a", ⟨0x10000000, 0x1000, "rw", true, false, true⟩),
         ("b", ⟨0, 0x1000, "rw", true, false, true⟩)], [], true, false⟩ ≠
      .ok (some .pointToPoint) := by decide

/-- C2 amended — `do_finalize` selects the point-to-point interconnect
(which carries no decoders) exactly when the bus has exactly one master,
exactly one slave, and the *first region of the regions collection in
insertion order* has origin `0` (the source tests
`next(iter(self.regions.values()))`, not the slave's own region). -/
theorem c2_p2p_first_region (s : SoCBusHandler) :
    do_finalize s = .ok (some .pointToPoint) ↔
      s.masters.length = 1 ∧ s.slaves.length = 1 ∧
        (s.regions.head?.map fun p => p.2.origin) = some 0 := by
  unfold do_finalize
  by_cases h1 : s.masters.length = 1 ∧ s.slaves.length = 1
  · have hne : s.masters.length ≠ 0 ∧ s.slaves.length ≠ 0 := by omega
    rw [if_pos hne, if_pos h1]
    cases hh : s.regions.head? with
    | none =>
      dsimp only
      constructor
      · intro h; cases h
      · rintro ⟨-, -, hm⟩; cases hm
    | some p =>
      obtain ⟨n, r⟩ := p
      dsimp only
      by_cases ho : r.origin = 0
      · rw [if_pos ho]
        simp [h1.1, h1.2, ho]
      · rw [if_neg ho]
        constructor
        · intro hsb
          exact absurd hsb (shared_branch_ne_p2p s)
        · rintro ⟨-, -, hm⟩
          exact (ho (by simpa using hm)).elim
  · by_cases hne : s.masters.length ≠ 0 ∧ s.slaves.length ≠ 0
    · rw [if_pos hne, if_neg h1]
      constructor
      · intro hsb
        exact absurd hsb (shared_branch_ne_p2p s)
      · rintro ⟨ha, hb, -⟩
        exact absurd ⟨ha, hb⟩ h1
    · rw [if_neg hne]
      constructor
      · intro hh
        simp at hh
      · rintro ⟨ha, hb, -⟩
        exact (hne ⟨by omega, by omega⟩).elim

/-! ### C4: the decode-disable restriction at finalize -/

theorem build_slave_decoders_error_ne {regions : List (String × SoCRegion)}
    {slaves : List String} {e : FinalizeErr}
    (h : build_slave_decoders regions slaves = .error e) : e ≠ .decodeDisable := by
  induction slaves with
  | nil => cases h
  | cons n rest ih =>
    unfold build_slave_decoders at h
    cases hl : regions.lookup n with
    | none =>
      rw [hl] at h
      injection h with h
      subst h
      intro hh
      cases hh
    | some r =>
      rw [hl] at h
      dsimp only at h
      by_cases ha : r.origin % r.size_pow2 ≠ 0
      · rw [if_pos ha] at h
        injection h with h
        subst h
        intro hh
        cases hh
      · rw [if_neg ha] at h
        exact ih h

/-- C4 counterexample — a shared bus with two regions of which exactly
*one* disables decoding fails `do_finalize` with the decode-disable error,
contradicting the claim that a bus with at most one decode-disabled region
passes the check. -/
theorem c4_decode_disable_counterexample :
    ((⟨"wishbone", 32, 32, "shared", ["m0", "m1"], ["a", "b"],
      [("a", ⟨0, 0x1000, "rw", true, false, true⟩),
       ("b", ⟨0x1000, 0x1000, "rw", true, false, false⟩)], [], true, false⟩ :
        SoCBusHandler).regions.filter (fun p => !p.2.decode)).length = 1 ∧
    do_finalize
      ⟨"wishbone", 32, 32, "shared", ["m0", "m1"], ["a", "b"],
        [("a", ⟨0, 0x1000, "rw", true, false, true⟩),
         ("b", ⟨0x1000, 0x1000, "rw", true, false, false⟩)], [], true, false⟩ =
      .error .decodeDisable := by decide

/-- C4 amended — when `do_finalize` builds a shared/crossbar interconnect,
it fails with the decode-disable error exactly when the bus has more than
one region and *any* region (not: more than one region) has
`decode = False`; with a single region, or with no decode-disabled region,
the check passes. -/
theorem c4_decode_disable_check (s : SoCBusHandler) (hm : s.masters ≠ [])
    (hs : s.slaves ≠ []) (hnp : ¬(s.masters.length = 1 ∧ s.slaves.length = 1)) :
    do_finalize s = .error .decodeDisable ↔
      1 < s.regions.length ∧ ∃ p ∈ s.regions, p.2.decode = false := by
  unfold do_finalize
  have hne : s.masters.length ≠ 0 ∧ s.slaves.length ≠ 0 := by
    constructor
    · simpa [List.length_eq_zero] using hm
    · simpa [List.length_eq_zero] using hs
  rw [if_pos hne, if_neg hnp]
  unfold shared_branch
  by_cases hcond : (1 < s.regions.length ∧ s.regions.any fun p => !p.2.decode)
  · rw [if_pos hcond]
    constructor
    · intro _
      obtain ⟨p, hp, hdec⟩ := List.any_eq_true.mp hcond.2
      exact ⟨hcond.1, p, hp, by simpa using hdec⟩
    · intro _
      rfl
  · rw [if_neg hcond]
    constructor
    · intro hh
      exfalso
      by_cases h2 : s.interconnect = "shared"
      · rw [if_pos h2] at hh
        cases hb : build_slave_decoders s.regions s.slaves with
        | error e =>
          rw [hb] at hh
          injection hh with hh
          exact build_slave_decoders_error_ne hb hh
        | ok u =>
          rw [hb] at hh
          cases hh
      · rw [if_neg h2] at hh
        by_cases h3 : s.interconnect = "crossbar"
        · rw [if_pos h3] at hh
          cases hb : build_slave_decoders s.regions s.slaves with
          | error e =>
            rw [hb] at hh
            injection hh with hh
            exact build_slave_decoders_error_ne hb hh
          | ok u =>
            rw [hb] at hh
            cases hh
        · rw [if_neg h3] at hh
          injection hh with hh
          cases hh
    · rintro ⟨hlen, p, hp, hdec⟩
      exact absurd ⟨hlen, List.any_eq_true.mpr ⟨p, hp, by simp [hdec]⟩⟩ hcond

/-- C4 witness: the amended equivalence evaluated on a concrete
two-master bus with one decode-disabled region among two. -/
theorem c4_decode_disable_check_witness :
    (do_finalize
        ⟨"wishbone", 32, 32, "shared", ["m0", "m1"], ["a", "b"],
          [("a", ⟨0, 0x1000, "rw", true, false, true⟩),
           ("b", ⟨0x1000, 0x1000, "rw", true, false, false⟩)], [], true, false⟩ =
      .error .decodeDisable) ↔
      (1 < (⟨"wishbone", 32, 32, "shared", ["m0", "m1"], ["a", "b"],
          [("a", ⟨0, 0x1000, "rw", true, false, true⟩),
           ("b", ⟨0x1000, 0x1000, "rw", true, false, false⟩)], [], true, false⟩ :
            SoCBusHandler).regions.length ∧
        ∃ p ∈ (⟨"wishbone", 32, 32, "shared", ["m0", "m1"], ["a", "b"],
          [("a", ⟨0, 0x1000, "rw", true, false, true⟩),
           ("b", ⟨0x1000, 0x1000, "rw", true, false, false⟩)], [], true, false⟩ :
            SoCBusHandler).regions, p.2.decode = false) :=
  c4_decode_disable_check
    ⟨"wishbone", 32, 32, "shared", ["m0", "m1"], ["a", "b"],
      [("a", ⟨0, 0x1000, "rw", true, false, true⟩),
       ("b", ⟨0x1000, 0x1000, "rw", true, false, false⟩)], [], true, false⟩
    (by decide) (by decide) (by decide)

end LiteX
